import Mathlib

/-!
Shallow embedding of the core of the lanta tiling window manager
(focus-aware stack, groups, layouts, screen/dock struts, key handling,
event-loop filtering) together with theorems checking the natural
language specification against the embedded code.

Conventions used throughout:
- Rust `VecDeque<T>` is modelled as `List T` (front of the deque is the
  head of the list).
- Machine integers (`u32`) are modelled as `Nat` with explicit
  wrap-around (`% 2^32`) at every arithmetic operation that can
  overflow in the Rust source.
- Code that can panic is modelled with `Option`: `none` is a panic.
- Calls into the X driver are recorded as a trace (`List XCall`).
-/

/- ### Iterator position (Rust `Iterator::position`) -/

/-- First index at which the predicate holds, as Rust `Iterator::position`. -/
def position {α : Type} (p : α → Bool) : List α → Option Nat
  | [] => none
  | x :: xs => if p x then some 0 else (position p xs).map (· + 1)

/- ### Stack (src/stack.rs) -/

/-- Focus-aware stack, stored as a zipper: the head of `after` is the
focused element (src/stack.rs). -/
structure Stack (α : Type) where
  before : List α
  after : List α
deriving Repr, DecidableEq

namespace Stack

/-- Empty stack (`Stack::new` / `Default`). -/
def new {α : Type} : Stack α := ⟨[], []⟩

/-- Build from an ordered sequence (`impl From<Vec<T>> for Stack<T>`):
`before` is empty, `after` is the whole sequence, so the first element
is focused. -/
def fromList {α : Type} (l : List α) : Stack α := ⟨[], l⟩

/-- Number of elements (`Stack::len`). -/
def len {α : Type} (s : Stack α) : Nat := s.before.length + s.after.length

/-- Emptiness check (`Stack::is_empty`). -/
def isEmpty {α : Type} (s : Stack α) : Bool := s.before.isEmpty && s.after.isEmpty

/-- Order-preserving traversal (`Stack::iter`): `before` then `after`. -/
def iterList {α : Type} (s : Stack α) : List α := s.before ++ s.after

/-- Focused element (`Stack::focused`): the first element of `after`. -/
def focused {α : Type} (s : Stack α) : Option α := s.after.head?

/-- Append at the end and focus the new element (`Stack::push`):
`before` absorbs all of `after`, then the new value becomes the sole
element of `after`. -/
def push {α : Type} (s : Stack α) (v : α) : Stack α :=
  ⟨s.before ++ s.after, [v]⟩

/-- Private helper (`Stack::ensure_after_not_empty`): if nothing is
focused but the stack is non-empty, focus the last element. -/
def ensureAfterNotEmpty {α : Type} (s : Stack α) : Stack α :=
  if s.after.isEmpty && !s.before.isEmpty then
    match s.before.getLast? with
    | some x => ⟨s.before.dropLast, [x]⟩
    | none => s
  else s

/-- Remove and return the first element matching the predicate
(`Stack::remove`). Panics (`none`) if no element matches. -/
def remove {α : Type} (s : Stack α) (p : α → Bool) : Option (α × Stack α) :=
  match position p s.before with
  | some i =>
    (s.before.get? i).map fun x => (x, ⟨s.before.eraseIdx i, s.after⟩)
  | none =>
    match position p s.after with
    | some i =>
      (s.after.get? i).map fun x =>
        (x, ensureAfterNotEmpty ⟨s.before, s.after.eraseIdx i⟩)
    | none => none

/-- Remove and return the focused element, shifting focus to the next
element (`Stack::remove_focused`). Total: returns `none` and leaves the
stack repaired if nothing is focused. -/
def removeFocused {α : Type} (s : Stack α) : Option α × Stack α :=
  match s.after with
  | [] => (none, ensureAfterNotEmpty s)
  | x :: rest => (some x, ensureAfterNotEmpty ⟨s.before, rest⟩)

/-- Focus the first element matching the predicate (`Stack::focus`).
Panics (`none`) if no element matches. -/
def focus {α : Type} (s : Stack α) (p : α → Bool) : Option (Stack α) :=
  match position p s.before with
  | some i => some ⟨s.before.take i, s.before.drop i ++ s.after⟩
  | none =>
    match position p s.after with
    | some i => some ⟨s.before ++ s.after.take i, s.after.drop i⟩
    | none => none

/-- Shift focus to the next element, cyclically (`Stack::focus_next`).
The `unwrap` of `after.pop_front()` is a panic (`none`) when `after` is
empty with `len ≥ 2`. -/
def focusNext {α : Type} (s : Stack α) : Option (Stack α) :=
  if s.len < 2 then some s
  else
    match s.after with
    | [] => none
    | x :: rest =>
      if rest.isEmpty then some ⟨[], s.before ++ [x]⟩
      else some ⟨s.before ++ [x], rest⟩

/-- Shift focus to the previous element, cyclically
(`Stack::focus_previous`). -/
def focusPrevious {α : Type} (s : Stack α) : Stack α :=
  let t : List α × List α :=
    if s.before.isEmpty then (s.after, []) else (s.before, s.after)
  match t.1.getLast? with
  | some x => ⟨t.1.dropLast, x :: t.2⟩
  | none => ⟨t.1, t.2⟩

/-- Move the focused element one position towards the end, cyclically,
keeping it focused (`Stack::shuffle_next`). -/
def shuffleNext {α : Type} (s : Stack α) : Stack α :=
  if s.len < 2 then s
  else
    match s.after with
    | x :: y :: rest => ⟨s.before ++ [y], x :: rest⟩
    | [x] => if s.before.isEmpty then s else ⟨[], x :: s.before⟩
    | [] => s

/-- Move the focused element one position towards the start, cyclically,
keeping it focused (`Stack::shuffle_previous`). -/
def shufflePrevious {α : Type} (s : Stack α) : Stack α :=
  match s.after with
  | [] => s
  | x :: rest =>
    match s.before.getLast? with
    | some b => ⟨s.before.dropLast, x :: b :: rest⟩
    | none => ⟨rest, [x]⟩

/-- Iterated `shuffleNext`. -/
def shuffleNextN {α : Type} : Nat → Stack α → Stack α
  | 0, s => s
  | n + 1, s => shuffleNextN n (shuffleNext s)

end Stack

/-- Invariant of the zipper representation: whenever the stack is
non-empty something is focused, i.e. an empty `after` forces an empty
`before`. -/
def StackInv {α : Type} (s : Stack α) : Prop := s.after = [] → s.before = []

/-- Stacks reachable from the constructors by the public operations of
`Stack` (panicking operations contribute only their successful
results). -/
inductive Reachable {α : Type} : Stack α → Prop
  | new : Reachable Stack.new
  | fromList (l : List α) : Reachable (Stack.fromList l)
  | push {s : Stack α} (v : α) : Reachable s → Reachable (s.push v)
  | remove {s s' : Stack α} {p : α → Bool} {x : α} :
      Reachable s → s.remove p = some (x, s') → Reachable s'
  | removeFocused {s : Stack α} : Reachable s → Reachable (s.removeFocused).2
  | focus {s s' : Stack α} {p : α → Bool} :
      Reachable s → s.focus p = some s' → Reachable s'
  | focusNext {s s' : Stack α} :
      Reachable s → s.focusNext = some s' → Reachable s'
  | focusPrevious {s : Stack α} : Reachable s → Reachable s.focusPrevious
  | shuffleNext {s : Stack α} : Reachable s → Reachable s.shuffleNext
  | shufflePrevious {s : Stack α} : Reachable s → Reachable s.shufflePrevious

/- ### u32 arithmetic (Rust release-mode wrapping semantics) -/

/-- Modulus of `u32` arithmetic. -/
def u32Mod : Nat := 4294967296

/-- Wrapping `u32` addition. -/
def add32 (a b : Nat) : Nat := (a + b) % u32Mod

/-- Wrapping `u32` subtraction. -/
def sub32 (a b : Nat) : Nat := (a % u32Mod + (u32Mod - b % u32Mod)) % u32Mod

/-- Wrapping `u32` multiplication. -/
def mul32 (a b : Nat) : Nat := a * b % u32Mod

/- ### Viewport and driver calls -/

/-- Usable screen rectangle (`Viewport` in src/lib.rs, all fields `u32`). -/
structure Viewport where
  x : Nat
  y : Nat
  width : Nat
  height : Nat
deriving Repr, DecidableEq

/-- Calls made into the X driver (`Connection` methods used by the core). -/
inductive XCall where
  | disableTracking (w : Nat)
  | enableTracking (w : Nat)
  | mapWindow (w : Nat)
  | unmapWindow (w : Nat)
  | configureWindow (w x y width height : Nat)
  | focusWindow (w : Nat)
  | focusNothing
  | closeWindow (w : Nat)
  | updateEwmhDesktops (names : List String) (current : Option Nat)
deriving Repr, DecidableEq

/- ### Layouts (src/layout/tiled.rs and src/layout/stack.rs) -/

/-- The two layout variants, each carrying its name and padding. -/
inductive LayoutKind where
  | tiled (name : String) (padding : Nat)
  | stacked (name : String) (padding : Nat)
deriving Repr, DecidableEq

/-- Layout name (`Layout::name`). -/
def LayoutKind.name : LayoutKind → String
  | .tiled n _ => n
  | .stacked n _ => n

/-- Driver calls made for one window of the tiled layout's loop body
(src/layout/tiled.rs lines 33-44). -/
def tiledLoopBody (padding : Nat) (v : Viewport) (tileHeight i w : Nat) : List XCall :=
  [XCall.disableTracking w, XCall.mapWindow w,
   XCall.configureWindow w (add32 v.x padding)
     (add32 (add32 v.y padding) (mul32 i (add32 tileHeight padding)))
     (sub32 v.width (mul32 padding 2)) tileHeight,
   XCall.enableTracking w]

/-- The enumerated loop of `TiledLayout::layout`. -/
def tiledLoop (padding : Nat) (v : Viewport) (tileHeight : Nat) : Nat → List Nat → List XCall
  | _, [] => []
  | i, w :: ws =>
    tiledLoopBody padding v tileHeight i w ++ tiledLoop padding v tileHeight (i + 1) ws

/-- Rust `TiledLayout::layout`: empty stack renders nothing, otherwise each
window is mapped and configured to its row. -/
def tiledRender (padding : Nat) (v : Viewport) (s : Stack Nat) : List XCall :=
  if s.isEmpty then []
  else
    tiledLoop padding v (sub32 (sub32 v.height padding / s.len) padding) 0 s.iterList

/-- Rust `StackLayout::layout`: non-focused windows are unmapped then the
focused window is mapped, configured and tracking-re-enabled. The
`unwrap` of `focused()` on a non-empty stack is a panic (`none`) if
nothing is focused. -/
def stackedRender (padding : Nat) (v : Viewport) (s : Stack Nat) : Option (List XCall) :=
  if s.isEmpty then some []
  else
    match s.focused with
    | none => none
    | some f =>
      some ((((s.iterList.filter (fun w => !(f == w))).map
          (fun w => [XCall.disableTracking w, XCall.unmapWindow w,
                     XCall.enableTracking w])).flatten)
        ++ [XCall.disableTracking f, XCall.mapWindow f,
            XCall.configureWindow f (add32 v.x padding) (add32 v.y padding)
              (sub32 v.width (mul32 padding 2)) (sub32 v.height (mul32 padding 2)),
            XCall.enableTracking f])

/-- Dispatch on the layout variant (`Layout::layout`). -/
def LayoutKind.render : LayoutKind → Viewport → Stack Nat → Option (List XCall)
  | .tiled _ pad, v, s => some (tiledRender pad v s)
  | .stacked _ pad, v, s => stackedRender pad v s

/- ### Spec-side tiled layout formulas (from the words of the spec) -/

/-- Spec formula: row height of the tiled layout. -/
def tiledSpecRowHeight (v : Viewport) (pad n : Nat) : Nat :=
  sub32 (sub32 v.height pad / n) pad

/-- Spec formula: x coordinate of every tiled row. -/
def tiledSpecX (v : Viewport) (pad : Nat) : Nat := add32 v.x pad

/-- Spec formula: y coordinate of tiled row i. -/
def tiledSpecY (v : Viewport) (pad n i : Nat) : Nat :=
  add32 (add32 v.y pad) (mul32 i (add32 (tiledSpecRowHeight v pad n) pad))

/-- Spec formula: width of every tiled row. -/
def tiledSpecW (v : Viewport) (pad : Nat) : Nat := sub32 v.width (mul32 pad 2)

/- ### Group (src/groups.rs) -/

/-- A workspace group: name, active flag, window stack, layout stack and
current viewport. -/
structure WmGroup where
  name : String
  active : Bool
  stack : Stack Nat
  layouts : Stack LayoutKind
  viewport : Viewport
deriving Repr, DecidableEq

/-- Rust `Group::perform_layout`: nothing while inactive; otherwise render the
focused layout (if any) and then focus the focused window or clear the
focus. -/
def WmGroup.performLayout (g : WmGroup) : Option (List XCall) :=
  if !g.active then some []
  else
    (match g.layouts.focused with
     | some l => l.render g.viewport g.stack
     | none => some []).map
      (fun t =>
        t ++ match g.stack.focused with
             | some w => [XCall.focusWindow w]
             | none => [XCall.focusNothing])

/-- Rust `Group::deactivate`: unmap every window (tracking-bracketed) and
clear the active flag. -/
def WmGroup.deactivate (g : WmGroup) : WmGroup × List XCall :=
  ({ g with active := false },
   (g.stack.iterList.map (fun w =>
     [XCall.disableTracking w, XCall.unmapWindow w, XCall.enableTracking w])).flatten)

/-- Rust `Group::activate`: set active, store the viewport, run a layout pass. -/
def WmGroup.activate (g : WmGroup) (v : Viewport) : Option (WmGroup × List XCall) :=
  let g' := { g with active := true, viewport := v }
  (g'.performLayout).map (fun t => (g', t))

/-- Rust `Group::update_viewport`. -/
def WmGroup.updateViewport (g : WmGroup) (v : Viewport) : Option (WmGroup × List XCall) :=
  let g' := { g with viewport := v }
  (g'.performLayout).map (fun t => (g', t))

/-- Rust `Group::add_window`. -/
def WmGroup.addWindow (g : WmGroup) (w : Nat) : Option (WmGroup × List XCall) :=
  let g' := { g with stack := g.stack.push w }
  (g'.performLayout).map (fun t => (g', t))

/-- Rust `Group::remove_window`: remove the window from the stack (panic when
absent) and run a layout pass; the result carries the new group, the
trace and the removed id. -/
def WmGroup.removeWindow (g : WmGroup) (w : Nat) : Option (WmGroup × List XCall × Nat) :=
  match g.stack.remove (fun x => x == w) with
  | none => none
  | some (removed, s') =>
    let g' := { g with stack := s' }
    (g'.performLayout).map (fun t => (g', t, removed))

/-- Rust `Group::remove_focused`: pop the focused window, run a layout pass,
then unmap the removed window with tracking disabled around the unmap. -/
def WmGroup.removeFocused (g : WmGroup) : Option (WmGroup × List XCall × Option Nat) :=
  let r := g.stack.removeFocused
  let g' := { g with stack := r.2 }
  (g'.performLayout).map (fun t =>
    match r.1 with
    | some w =>
      (g', t ++ [XCall.disableTracking w, XCall.unmapWindow w, XCall.enableTracking w],
       some w)
    | none => (g', t, none))

/-- Rust `Group::contains`. -/
def WmGroup.contains (g : WmGroup) (w : Nat) : Bool :=
  g.stack.iterList.any (fun x => x == w)

/-- Rust `Group::focus`: focus the given window in the stack (panic when
absent), then run a layout pass. -/
def WmGroup.focus (g : WmGroup) (w : Nat) : Option (WmGroup × List XCall) :=
  match g.stack.focus (fun x => x == w) with
  | none => none
  | some s' =>
    let g' := { g with stack := s' }
    (g'.performLayout).map (fun t => (g', t))

/-- Rust `Group::layout_next`: focus the next layout, then run a layout pass. -/
def WmGroup.layoutNext (g : WmGroup) : Option (WmGroup × List XCall) :=
  match g.layouts.focusNext with
  | none => none
  | some l' =>
    let g' := { g with layouts := l' }
    (g'.performLayout).map (fun t => (g', t))

/-- Rust `Group::layout_previous` as written in src/groups.rs lines 189-198:
`layouts.focus_next()`, then `layouts.focus_previous()`, then a layout
pass. -/
def WmGroup.layoutPrevious (g : WmGroup) : Option (WmGroup × List XCall) :=
  match g.layouts.focusNext with
  | none => none
  | some l1 =>
    let g' := { g with layouts := l1.focusPrevious }
    (g'.performLayout).map (fun t => (g', t))

/- ### Screen and docks (src/lib.rs lines 140-190) -/

/-- Strut reservation read from a dock window, with the four sides and
the start/end extents of the EWMH partial strut. -/
structure Strut where
  left : Nat
  right : Nat
  top : Nat
  bottom : Nat
  leftStartY : Nat
  leftEndY : Nat
  rightStartY : Nat
  rightEndY : Nat
  topStartX : Nat
  topEndX : Nat
  bottomStartX : Nat
  bottomEndX : Nat
deriving Repr, DecidableEq

/-- A dock window together with its optional strut. -/
structure Dock where
  windowId : Nat
  strut : Option Strut
deriving Repr, DecidableEq

/-- The fold of `Screen::viewport`: componentwise max of
(left, right, top, bottom) over all docks that have a strut. -/
def screenStrutFold (docks : List Dock) : Nat × Nat × Nat × Nat :=
  (docks.filterMap Dock.strut).foldl
    (fun acc s =>
      (max acc.1 s.left, max acc.2.1 s.right, max acc.2.2.1 s.top, max acc.2.2.2 s.bottom))
    (0, 0, 0, 0)

/-- Rust `Screen::viewport(screen_width, screen_height)`. -/
def screenViewport (docks : List Dock) (screenWidth screenHeight : Nat) : Viewport :=
  { x := (screenStrutFold docks).1,
    y := (screenStrutFold docks).2.2.1,
    width := sub32 (sub32 screenWidth (screenStrutFold docks).1) (screenStrutFold docks).2.1,
    height := sub32 (sub32 screenHeight (screenStrutFold docks).2.2.1)
      (screenStrutFold docks).2.2.2 }

/-- Spec-side formula: maximum of the left reservations (0 when no dock
has a strut). -/
def specMaxLeft (docks : List Dock) : Nat :=
  (docks.filterMap Dock.strut).foldr (fun s acc => max s.left acc) 0

/-- Spec-side formula: maximum of the right reservations. -/
def specMaxRight (docks : List Dock) : Nat :=
  (docks.filterMap Dock.strut).foldr (fun s acc => max s.right acc) 0

/-- Spec-side formula: maximum of the top reservations. -/
def specMaxTop (docks : List Dock) : Nat :=
  (docks.filterMap Dock.strut).foldr (fun s acc => max s.top acc) 0

/-- Spec-side formula: maximum of the bottom reservations. -/
def specMaxBottom (docks : List Dock) : Nat :=
  (docks.filterMap Dock.strut).foldr (fun s acc => max s.bottom acc) 0

/-- Everything about a dock except the start/end extents of its strut. -/
def dockKey (d : Dock) : Nat × Option (Nat × Nat × Nat × Nat) :=
  (d.windowId, d.strut.map (fun s => (s.left, s.right, s.top, s.bottom)))

/- ### Modifier keys (src/keys.rs) -/

/-- The modifier enumeration of src/keys.rs lines 11-18. -/
inductive ModKey where
  | mod1
  | mod2
  | mod3
  | mod4
  | mod5
deriving Repr, DecidableEq

/-- X11 modifier masks (x11::xlib constants). -/
def xlibShiftMask : Nat := 1

/-- X11 Lock modifier mask. -/
def xlibLockMask : Nat := 2

/-- X11 Control modifier mask. -/
def xlibControlMask : Nat := 4

/-- X11 Mod1 modifier mask. -/
def xlibMod1Mask : Nat := 8

/-- X11 Mod2 modifier mask. -/
def xlibMod2Mask : Nat := 16

/-- X11 Mod3 modifier mask. -/
def xlibMod3Mask : Nat := 32

/-- X11 Mod4 modifier mask. -/
def xlibMod4Mask : Nat := 64

/-- X11 Mod5 modifier mask. -/
def xlibMod5Mask : Nat := 128

/-- Rust `ModKey::mask`. -/
def ModKey.mask : ModKey → Nat
  | .mod1 => xlibMod1Mask
  | .mod2 => xlibMod2Mask
  | .mod3 => xlibMod3Mask
  | .mod4 => xlibMod4Mask
  | .mod5 => xlibMod5Mask

/-- Rust `ModKey::mask_all`: bit-or of the Mod1..Mod5 masks. -/
def ModKey.maskAll : Nat :=
  xlibMod1Mask ||| xlibMod2Mask ||| xlibMod3Mask ||| xlibMod4Mask ||| xlibMod5Mask

/-- A combination of a modifier mask and a keysym (`KeyCombo`). -/
structure KeyCombo where
  modMask : Nat
  keysym : Nat
deriving Repr, DecidableEq

/- ### Event loop filtering (src/x.rs lines 404-515) -/

/-- Core events emitted by the event loop. -/
inductive Event where
  | mapRequest (w : Nat)
  | unmapNotify (w : Nat)
  | destroyNotify (w : Nat)
  | keyPress (k : KeyCombo)
  | enterNotify (w : Nat)
deriving Repr, DecidableEq

/-- Rust `EventLoop::on_unmap_notify`: propagate the raw UnmapNotify only when
its event window differs from the root window. -/
def onUnmapNotifyRaw (eventWindow window root : Nat) : Option Event :=
  if eventWindow ≠ root then some (Event.unmapNotify window) else none

/-- Rust `EventLoop::on_key_press`: the driver's reported state is masked with
`ModKey::mask_all()` to build the `KeyCombo` used for lookup. -/
def onKeyPressRaw (state keysym : Nat) : Event :=
  Event.keyPress { modMask := state &&& ModKey.maskAll, keysym := keysym }

/- ### The workspace manager (src/lib.rs) -/

/-- Writing through `focused_mut()`: replace the focused element. -/
def Stack.setFocused {α : Type} (s : Stack α) (v : α) : Stack α :=
  match s.after with
  | [] => s
  | _ :: rest => ⟨s.before, v :: rest⟩

/-- Manager state: the group stack, the screen's docks and the root
window geometry reported by the driver. -/
structure Lanta where
  groups : Stack WmGroup
  docks : List Dock
  rootWidth : Nat
  rootHeight : Nat
deriving Repr, DecidableEq

/-- Rust `Connection::update_ewmh_desktops`: publish the group names and the
index of the group whose name matches the focused group's name. -/
def updateEwmhCall (groups : Stack WmGroup) : XCall :=
  XCall.updateEwmhDesktops (groups.iterList.map WmGroup.name)
    (groups.focused.bind fun f => position (fun g => g.name == f.name) groups.iterList)

/-- Body of `Lanta::switch_group` once the focused (current) group is
known: no-op when the target is the current group; otherwise deactivate
the current group, focus the named group (a panic when absent), activate
it with the current viewport and publish EWMH desktops. Returns the
driver trace emitted before any panic together with the optional new
state (`none` is a panic). -/
def Lanta.switchGroupAux (l : Lanta) (g : WmGroup) (name : String) :
    List XCall × Option Lanta :=
  if g.name == name then ([], some l)
  else
    match (l.groups.setFocused (g.deactivate).1).focus (fun gr => gr.name == name) with
    | none => ((g.deactivate).2, none)
    | some groups2 =>
      match groups2.focused with
      | none => ((g.deactivate).2, none)
      | some g2 =>
        match g2.activate (screenViewport l.docks l.rootWidth l.rootHeight) with
        | none => ((g.deactivate).2, none)
        | some ga =>
          ((g.deactivate).2 ++ ga.2 ++ [updateEwmhCall (groups2.setFocused ga.1)],
           some { l with groups := groups2.setFocused ga.1 })

/-- Rust `Lanta::switch_group` (the `expect` on the focused group is a panic
when the group stack is empty). -/
def Lanta.switchGroup (l : Lanta) (name : String) : List XCall × Option Lanta :=
  match l.groups.focused with
  | none => ([], none)
  | some g => l.switchGroupAux g name

/-- Rust `Lanta::on_enter_notify`: focus the window in the active group
(a panic when the window is not in the active group's stack). -/
def Lanta.onEnterNotify (l : Lanta) (w : Nat) : Option (Lanta × List XCall) :=
  match l.groups.focused with
  | none => none
  | some g =>
    (g.focus w).map (fun r => ({ l with groups := l.groups.setFocused r.1 }, r.2))

/- ### Concrete states used by witnesses and counterexamples -/

/-- A concrete active group with two layouts, the tiled one focused. -/
def exGroupTwoLayouts : WmGroup :=
  { name := "a", active := true,
    stack := Stack.fromList [1],
    layouts := Stack.fromList [LayoutKind.tiled "tiled" 10, LayoutKind.stacked "stacked" 10],
    viewport := ⟨0, 0, 1000, 800⟩ }

/-- A concrete active group holding windows 1 and 2 under a tiled layout. -/
def exGroupTwoWindows : WmGroup :=
  { name := "a", active := true,
    stack := Stack.fromList [1, 2],
    layouts := Stack.fromList [LayoutKind.tiled "tiled" 10],
    viewport := ⟨0, 0, 1000, 800⟩ }

/-- A concrete manager whose only group is `exGroupTwoWindows`. -/
def exLanta : Lanta :=
  { groups := Stack.fromList [exGroupTwoWindows],
    docks := [],
    rootWidth := 1000,
    rootHeight := 800 }

/-- A concrete dock reserving 5 pixels left and 20 on top. -/
def exDock : Dock := ⟨10, some ⟨5, 0, 20, 0, 1, 2, 3, 4, 5, 6, 7, 8⟩⟩

/-- The same dock with different start/end extents. -/
def exDock' : Dock := ⟨10, some ⟨5, 0, 20, 0, 9, 9, 9, 9, 9, 9, 9, 9⟩⟩

/- ### Lemmas about position -/

theorem position_none_iff {α : Type} (p : α → Bool) (l : List α) :
    position p l = none ↔ ∀ x ∈ l, p x = false := by
  induction l with
  | nil => simp [position]
  | cons x xs ih =>
    cases hp : p x with
    | true => simp [position, hp]
    | false => simp [position, hp, ih]

theorem position_some {α : Type} {p : α → Bool} {l : List α} {i : Nat}
    (h : position p l = some i) : ∃ x, l.get? i = some x ∧ p x = true := by
  induction l generalizing i with
  | nil => simp [position] at h
  | cons x xs ih =>
    cases hp : p x with
    | true =>
      simp [position, hp] at h
      subst h
      exact ⟨x, rfl, hp⟩
    | false =>
      simp [position, hp] at h
      obtain ⟨j, hj, rfl⟩ := h
      obtain ⟨y, hy, hpy⟩ := ih hj
      exact ⟨y, by simpa using hy, hpy⟩

theorem position_lt_length {α : Type} {p : α → Bool} {l : List α} {i : Nat}
    (h : position p l = some i) : i < l.length := by
  obtain ⟨y, hy, -⟩ := position_some h
  exact (List.get?_eq_some.mp hy).1

/- ### Stack invariant preservation -/

theorem stackInv_ensureAfterNotEmpty {α : Type} (s : Stack α) :
    StackInv s.ensureAfterNotEmpty := by
  obtain ⟨b, a⟩ := s
  cases a with
  | cons x rest => simp [Stack.ensureAfterNotEmpty, StackInv]
  | nil =>
    cases b with
    | nil => simp [Stack.ensureAfterNotEmpty, StackInv]
    | cons y ys =>
      have hx : (y :: ys).getLast? = some ((y :: ys).getLast (by simp)) :=
        List.getLast?_eq_getLast _ (by simp)
      simp [Stack.ensureAfterNotEmpty, StackInv, hx]

theorem stackInv_new {α : Type} : StackInv (Stack.new : Stack α) := fun _ => rfl

theorem stackInv_fromList {α : Type} (l : List α) : StackInv (Stack.fromList l) :=
  fun _ => rfl

theorem stackInv_push {α : Type} (s : Stack α) (v : α) : StackInv (s.push v) := by
  intro h
  simp [Stack.push] at h

theorem stackInv_remove {α : Type} {s s' : Stack α} {p : α → Bool} {x : α}
    (hs : StackInv s) (h : s.remove p = some (x, s')) : StackInv s' := by
  unfold Stack.remove at h
  cases hb : position p s.before with
  | some i =>
    rw [hb] at h
    simp only [Option.map_eq_some'] at h
    obtain ⟨y, hy, hxy⟩ := h
    injection hxy with h1 h2
    intro ha
    rw [← h2] at ha
    simp only at ha
    simp only [StackInv] at hs
    rw [hs ha] at hb
    simp [position] at hb
  | none =>
    rw [hb] at h
    cases hc : position p s.after with
    | none => rw [hc] at h; simp at h
    | some i =>
      rw [hc] at h
      simp only [Option.map_eq_some'] at h
      obtain ⟨y, hy, hxy⟩ := h
      injection hxy with h1 h2
      rw [← h2]
      exact stackInv_ensureAfterNotEmpty _

theorem stackInv_removeFocused {α : Type} (s : Stack α) :
    StackInv (s.removeFocused).2 := by
  obtain ⟨b, a⟩ := s
  cases a with
  | nil => exact stackInv_ensureAfterNotEmpty _
  | cons x rest => exact stackInv_ensureAfterNotEmpty _

theorem stackInv_focus {α : Type} {s s' : Stack α} {p : α → Bool}
    (h : s.focus p = some s') : StackInv s' := by
  unfold Stack.focus at h
  cases hb : position p s.before with
  | some i =>
    rw [hb] at h
    simp at h
    intro ha
    rw [← h] at ha
    simp at ha
    have := position_lt_length hb
    omega
  | none =>
    rw [hb] at h
    cases hc : position p s.after with
    | none => rw [hc] at h; simp at h
    | some i =>
      rw [hc] at h
      simp at h
      intro ha
      rw [← h] at ha
      simp at ha
      have := position_lt_length hc
      omega

theorem stackInv_focusNext {α : Type} {s s' : Stack α} (hs : StackInv s)
    (h : s.focusNext = some s') : StackInv s' := by
  unfold Stack.focusNext at h
  by_cases hlen : s.len < 2
  · rw [if_pos hlen] at h
    simp at h
    rw [← h]
    exact hs
  · rw [if_neg hlen] at h
    cases ha : s.after with
    | nil => rw [ha] at h; simp at h
    | cons x rest =>
      rw [ha] at h
      cases rest with
      | nil =>
        simp at h
        intro hh
        rw [← h] at hh
        simp at hh
      | cons y r2 =>
        simp at h
        intro hh
        rw [← h] at hh
        simp at hh

theorem stackInv_focusPrevious {α : Type} (s : Stack α) :
    StackInv s.focusPrevious := by
  obtain ⟨b, a⟩ := s
  unfold Stack.focusPrevious
  cases b with
  | nil =>
    cases a with
    | nil => intro _; rfl
    | cons x rest =>
      have hx : (x :: rest).getLast? = some ((x :: rest).getLast (by simp)) :=
        List.getLast?_eq_getLast _ (by simp)
      simp [hx, StackInv]
  | cons y ys =>
    have hx : (y :: ys).getLast? = some ((y :: ys).getLast (by simp)) :=
      List.getLast?_eq_getLast _ (by simp)
    simp [hx, StackInv]

theorem stackInv_shuffleNext {α : Type} (s : Stack α) (hs : StackInv s) :
    StackInv s.shuffleNext := by
  obtain ⟨b, a⟩ := s
  unfold Stack.shuffleNext
  by_cases hlen : (Stack.mk b a).len < 2
  · rw [if_pos hlen]; exact hs
  · rw [if_neg hlen]
    cases a with
    | nil => exact hs
    | cons x rest =>
      cases rest with
      | nil =>
        cases hb : b with
        | nil => simpa [hb] using hs
        | cons y ys => simp [StackInv]
      | cons y r2 => simp [StackInv]

theorem stackInv_shufflePrevious {α : Type} (s : Stack α) (hs : StackInv s) :
    StackInv s.shufflePrevious := by
  obtain ⟨b, a⟩ := s
  unfold Stack.shufflePrevious
  cases a with
  | nil => exact hs
  | cons x rest =>
    cases hb : b.getLast? with
    | none => simp [StackInv]
    | some z => simp [StackInv]

theorem reachable_stackInv {α : Type} {s : Stack α} (h : Reachable s) :
    StackInv s := by
  induction h with
  | new => exact stackInv_new
  | fromList l => exact stackInv_fromList l
  | push v _ _ => exact stackInv_push _ v
  | remove _ h ih => exact stackInv_remove ih h
  | removeFocused _ _ => exact stackInv_removeFocused _
  | focus _ h _ => exact stackInv_focus h
  | focusNext _ h ih => exact stackInv_focusNext ih h
  | focusPrevious _ _ => exact stackInv_focusPrevious _
  | shuffleNext _ ih => exact stackInv_shuffleNext _ ih
  | shufflePrevious _ ih => exact stackInv_shufflePrevious _ ih

/- ### Shuffle lemmas -/

theorem shuffleNext_focused {α : Type} (s : Stack α) :
    s.shuffleNext.focused = s.focused := by
  obtain ⟨b, a⟩ := s
  unfold Stack.shuffleNext
  by_cases hlen : (Stack.mk b a).len < 2
  · rw [if_pos hlen]
  · rw [if_neg hlen]
    cases a with
    | nil => rfl
    | cons x rest =>
      cases rest with
      | nil =>
        cases b with
        | nil => simp
        | cons y ys => simp [Stack.focused]
      | cons y r2 => simp [Stack.focused]

theorem shuffleNext_after_nil {α : Type} (b : List α) :
    Stack.shuffleNext ⟨b, []⟩ = ⟨b, []⟩ := by
  unfold Stack.shuffleNext
  split
  · rfl
  · rfl

theorem shuffleNextN_after_nil {α : Type} (n : Nat) (b : List α) :
    Stack.shuffleNextN n ⟨b, []⟩ = ⟨b, []⟩ := by
  induction n with
  | zero => rfl
  | succ n ih =>
    show Stack.shuffleNextN n (Stack.shuffleNext ⟨b, []⟩) = _
    rw [shuffleNext_after_nil]
    exact ih

theorem shuffleNextN_add {α : Type} (m n : Nat) (s : Stack α) :
    Stack.shuffleNextN (m + n) s = Stack.shuffleNextN m (Stack.shuffleNextN n s) := by
  induction n generalizing s with
  | zero => rfl
  | succ n ih =>
    show Stack.shuffleNextN (m + n) (Stack.shuffleNext s)
        = Stack.shuffleNextN m (Stack.shuffleNextN n (Stack.shuffleNext s))
    exact ih _

theorem shuffleNextN_take {α : Type} (k : Nat) (b rest : List α) (x : α)
    (hk : k ≤ rest.length) :
    Stack.shuffleNextN k ⟨b, x :: rest⟩ = ⟨b ++ rest.take k, x :: rest.drop k⟩ := by
  induction k generalizing b rest with
  | zero => simp [Stack.shuffleNextN]
  | succ k ih =>
    cases rest with
    | nil => simp at hk
    | cons r rs =>
      have hlen : ¬ ((⟨b, x :: r :: rs⟩ : Stack α).len < 2) := by
        simp only [Stack.len, List.length_cons]
        omega
      have hstep : Stack.shuffleNext (⟨b, x :: r :: rs⟩ : Stack α) = ⟨b ++ [r], x :: rs⟩ := by
        unfold Stack.shuffleNext
        rw [if_neg hlen]
      show Stack.shuffleNextN k (Stack.shuffleNext ⟨b, x :: r :: rs⟩) = _
      rw [hstep, ih (b ++ [r]) rs (by simpa using hk)]
      simp

theorem shuffleNextN_len {α : Type} (s : Stack α) :
    Stack.shuffleNextN s.len s = s := by
  obtain ⟨b, a⟩ := s
  cases a with
  | nil => exact shuffleNextN_after_nil _ _
  | cons x rest =>
    have h1 : Stack.shuffleNextN rest.length ⟨b, x :: rest⟩ = ⟨b ++ rest, [x]⟩ := by
      have := shuffleNextN_take rest.length b rest x le_rfl
      simpa using this
    have hL : (Stack.mk b (x :: rest)).len = b.length + (1 + rest.length) := by
      simp only [Stack.len, List.length_cons]
      omega
    rw [hL, shuffleNextN_add, shuffleNextN_add, h1]
    have h2 : Stack.shuffleNextN 1 (⟨b ++ rest, [x]⟩ : Stack α)
        = Stack.shuffleNext ⟨b ++ rest, [x]⟩ := rfl
    rw [h2]
    cases hbr : b ++ rest with
    | nil =>
      obtain ⟨hb, hr⟩ := List.append_eq_nil.mp hbr
      subst hb; subst hr
      show Stack.shuffleNextN 0 (Stack.shuffleNext ⟨[], [x]⟩) = _
      show Stack.shuffleNext ⟨[], [x]⟩ = _
      unfold Stack.shuffleNext
      rw [if_pos (by simp [Stack.len])]
    | cons z zs =>
      have hstep : Stack.shuffleNext (⟨z :: zs, [x]⟩ : Stack α) = ⟨[], x :: z :: zs⟩ := by
        unfold Stack.shuffleNext
        rw [if_neg (by simp only [Stack.len, List.length_cons]; omega)]
        simp
      rw [hstep]
      have hp : b.length ≤ (z :: zs).length := by
        have h4 := congrArg List.length hbr
        simp only [List.length_append, List.length_cons] at h4 ⊢
        omega
      have h3 := shuffleNextN_take b.length [] (z :: zs) x hp
      rw [h3, ← hbr]
      simp [List.take_left, List.drop_left]

theorem shuffleNextN_focused {α : Type} (k : Nat) (s : Stack α) :
    (Stack.shuffleNextN k s).focused = s.focused := by
  induction k generalizing s with
  | zero => rfl
  | succ k ih =>
    show (Stack.shuffleNextN k (Stack.shuffleNext s)).focused = _
    rw [ih, shuffleNext_focused]

/- ### Further Stack lemmas -/

theorem drop_head? {α : Type} (l : List α) (i : Nat) : (l.drop i).head? = l.get? i := by
  induction l generalizing i with
  | nil => simp
  | cons x xs ih =>
    cases i with
    | zero => rfl
    | succ i => exact ih i

theorem focused_mem {α : Type} {s : Stack α} {x : α} (h : s.focused = some x) :
    x ∈ s.iterList := by
  unfold Stack.focused at h
  cases ha : s.after with
  | nil => rw [ha] at h; simp at h
  | cons y rest =>
    rw [ha] at h
    simp at h
    subst h
    simp [Stack.iterList, ha]

theorem setFocused_focused {α : Type} {s : Stack α} {x : α} (h : s.focused = some x)
    (v : α) : (s.setFocused v).focused = some v := by
  unfold Stack.focused at h
  cases ha : s.after with
  | nil => rw [ha] at h; simp at h
  | cons y rest => simp [Stack.setFocused, ha, Stack.focused]

theorem setFocused_mem {α : Type} {s : Stack α} {v y : α}
    (h : y ∈ (s.setFocused v).iterList) : y ∈ s.iterList ∨ y = v := by
  unfold Stack.setFocused at h
  cases ha : s.after with
  | nil => rw [ha] at h; exact Or.inl h
  | cons z rest =>
    rw [ha] at h
    simp [Stack.iterList] at h
    rcases h with h | h | h
    · exact Or.inl (by simp [Stack.iterList, ha, h])
    · exact Or.inr h
    · exact Or.inl (by simp [Stack.iterList, ha, h])

theorem head?_append_some {α : Type} {l₁ : List α} {a : α} (h : l₁.head? = some a)
    (l₂ : List α) : (l₁ ++ l₂).head? = some a := by
  cases l₁ with
  | nil => simp at h
  | cons x xs => exact h

theorem stack_focus_mem {s : Stack Nat} {w : Nat} (hm : w ∈ s.iterList) :
    ∃ s', s.focus (fun x => x == w) = some s' ∧ s'.focused = some w := by
  cases hb : position (fun x => x == w) s.before with
  | some i =>
    refine ⟨⟨s.before.take i, s.before.drop i ++ s.after⟩, ?_, ?_⟩
    · unfold Stack.focus
      rw [hb]
    · obtain ⟨x, hx, hpx⟩ := position_some hb
      have hxw : x = w := by simpa using hpx
      show (s.before.drop i ++ s.after).head? = some w
      exact head?_append_some (by rw [drop_head?, hx, hxw]) _
  | none =>
    have hwb : w ∉ s.before := by
      intro hmem
      have := (position_none_iff _ _).mp hb w hmem
      simp at this
    have hwa : w ∈ s.after := by
      rcases List.mem_append.mp hm with h | h
      · exact absurd h hwb
      · exact h
    cases hc : position (fun x => x == w) s.after with
    | none =>
      have := (position_none_iff _ _).mp hc w hwa
      simp at this
    | some i =>
      refine ⟨⟨s.before ++ s.after.take i, s.after.drop i⟩, ?_, ?_⟩
      · unfold Stack.focus
        rw [hb, hc]
      · obtain ⟨x, hx, hpx⟩ := position_some hc
        have hxw : x = w := by simpa using hpx
        show (s.after.drop i).head? = some w
        rw [drop_head?, hx, hxw]

theorem stack_focus_not_found {α : Type} {s : Stack α} {p : α → Bool}
    (h : ∀ x ∈ s.iterList, p x = false) : s.focus p = none := by
  have hb : position p s.before = none :=
    (position_none_iff _ _).mpr fun x hx => h x (List.mem_append_left _ hx)
  have hc : position p s.after = none :=
    (position_none_iff _ _).mpr fun x hx => h x (List.mem_append_right _ hx)
  unfold Stack.focus
  rw [hb, hc]

theorem stack_remove_mem {s : Stack Nat} {w : Nat} (hm : w ∈ s.iterList) :
    ∃ s', s.remove (fun x => x == w) = some (w, s') := by
  cases hb : position (fun x => x == w) s.before with
  | some i =>
    obtain ⟨x, hx, hpx⟩ := position_some hb
    have hxw : x = w := by simpa using hpx
    refine ⟨⟨s.before.eraseIdx i, s.after⟩, ?_⟩
    unfold Stack.remove
    rw [hb]
    show (s.before.get? i).map
        (fun y => (y, (⟨s.before.eraseIdx i, s.after⟩ : Stack Nat)))
      = some (w, ⟨s.before.eraseIdx i, s.after⟩)
    rw [hx, hxw]
    rfl
  | none =>
    have hwb : w ∉ s.before := by
      intro hmem
      have := (position_none_iff _ _).mp hb w hmem
      simp at this
    have hwa : w ∈ s.after := by
      rcases List.mem_append.mp hm with h | h
      · exact absurd h hwb
      · exact h
    cases hc : position (fun x => x == w) s.after with
    | none =>
      have := (position_none_iff _ _).mp hc w hwa
      simp at this
    | some i =>
      obtain ⟨x, hx, hpx⟩ := position_some hc
      have hxw : x = w := by simpa using hpx
      refine ⟨Stack.ensureAfterNotEmpty ⟨s.before, s.after.eraseIdx i⟩, ?_⟩
      unfold Stack.remove
      rw [hb, hc]
      show (s.after.get? i).map
          (fun y => (y, Stack.ensureAfterNotEmpty ⟨s.before, s.after.eraseIdx i⟩))
        = some (w, Stack.ensureAfterNotEmpty ⟨s.before, s.after.eraseIdx i⟩)
      rw [hx, hxw]
      rfl

/- ### Layout and group layout-pass lemmas -/

theorem stackedRender_isSome (pad : Nat) (v : Viewport) {s : Stack Nat}
    (h : s.isEmpty = true ∨ (s.focused).isSome = true) :
    (stackedRender pad v s).isSome = true := by
  unfold stackedRender
  rcases h with h | h
  · rw [if_pos h]; rfl
  · by_cases he : s.isEmpty = true
    · rw [if_pos he]; rfl
    · rw [if_neg he]
      cases hf : s.focused with
      | none => rw [hf] at h; simp at h
      | some f => simp

theorem render_isSome (lk : LayoutKind) (v : Viewport) {s : Stack Nat}
    (h : s.isEmpty = true ∨ (s.focused).isSome = true) :
    (lk.render v s).isSome = true := by
  cases lk with
  | tiled n pad => rfl
  | stacked n pad => exact stackedRender_isSome pad v h

theorem performLayout_isSome {g : WmGroup}
    (h : g.stack.isEmpty = true ∨ (g.stack.focused).isSome = true) :
    (g.performLayout).isSome = true := by
  unfold WmGroup.performLayout
  cases hac : g.active with
  | false => simp
  | true =>
    rw [if_neg (by simp)]
    cases hl : g.layouts.focused with
    | none => rfl
    | some lk =>
      have hr := render_isSome lk g.viewport h
      obtain ⟨t, hro⟩ := Option.isSome_iff_exists.mp hr
      simp [hro]

theorem stackInv_emptiness {α : Type} {s : Stack α} (h : StackInv s) :
    s.isEmpty = true ∨ (s.focused).isSome = true := by
  cases ha : s.after with
  | nil =>
    left
    have hb := h ha
    simp [Stack.isEmpty, ha, hb]
  | cons x rest =>
    right
    simp [Stack.focused, ha]

theorem deactivate_unmaps (g : WmGroup) :
    ∀ w ∈ g.stack.iterList, XCall.unmapWindow w ∈ (g.deactivate).2 := by
  intro w hw
  simp only [WmGroup.deactivate, List.mem_flatten, List.mem_map]
  exact ⟨[XCall.disableTracking w, XCall.unmapWindow w, XCall.enableTracking w],
    ⟨w, hw, rfl⟩, by simp⟩

/- ### Claim C4 -/

/- ### Claim C4 -/

/-- C4: for every `Stack` reachable by any sequence of the public
operations, if the stack is non-empty then `focused()` returns some
element, and if the stack is empty then `focused()` returns none. -/
theorem stack_focused_iff_nonempty {α : Type} (s : Stack α) (h : Reachable s) :
    (¬ s.isEmpty = true → (s.focused).isSome = true) ∧
    (s.isEmpty = true → s.focused = none) := by
  have hinv := reachable_stackInv h
  obtain ⟨b, a⟩ := s
  constructor
  · intro hne
    cases a with
    | nil =>
      have hb : b = [] := hinv rfl
      subst hb
      exact absurd rfl hne
    | cons x rest => simp [Stack.focused]
  · intro he
    cases a with
    | nil => rfl
    | cons x rest => simp [Stack.isEmpty] at he

/-- Witness for C4: a concrete reachable non-empty stack has a focused
element. -/
theorem stack_focused_iff_nonempty_witness :
    ¬ (Stack.new.push (1 : Nat)).isEmpty = true ∧
    ((Stack.new.push (1 : Nat)).focused).isSome = true :=
  ⟨by decide,
   (stack_focused_iff_nonempty _ (Reachable.push 1 Reachable.new)).1 (by decide)⟩

/- ### Claim C5 -/

/-- C5: for every stack of length N ≥ 1, applying `shuffle_next` N times
restores the original element order, and after any number of single
applications `focused()` still returns the same element value. -/
theorem shuffleNext_cycle_id {α : Type} (s : Stack α) (_hlen : 1 ≤ s.len) :
    (Stack.shuffleNextN s.len s).iterList = s.iterList ∧
    ∀ k : Nat, (Stack.shuffleNextN k s).focused = s.focused := by
  exact ⟨by rw [shuffleNextN_len], fun k => shuffleNextN_focused k s⟩

/-- Witness for C5 on the concrete stack [1, 2, 3]. -/
theorem shuffleNext_cycle_id_witness :
    1 ≤ (Stack.fromList [1, 2, 3]).len ∧
    (Stack.shuffleNextN (Stack.fromList [1, 2, 3]).len
        (Stack.fromList [1, 2, 3])).iterList = (Stack.fromList [1, 2, 3]).iterList ∧
    (Stack.shuffleNextN 2 (Stack.fromList [1, 2, 3])).focused
        = (Stack.fromList [1, 2, 3]).focused :=
  ⟨by decide,
   (shuffleNext_cycle_id (Stack.fromList [1, 2, 3]) (by decide)).1,
   (shuffleNext_cycle_id (Stack.fromList [1, 2, 3]) (by decide)).2 2⟩

example : (Stack.fromList [1, 2, 3]).focused = some 1 := by decide
example : ((Stack.new.push 2).push 3).iterList = [2, 3] := by decide
example : (Stack.shuffleNextN 1 (((Stack.new.push 2).push 3).push 4)).iterList
    = [4, 2, 3] := by decide
example : (Stack.shuffleNextN 2 (((Stack.new.push 2).push 3).push 4)).iterList
    = [2, 4, 3] := by decide
example : (Stack.shuffleNextN 3 (((Stack.new.push 2).push 3).push 4)).iterList
    = [2, 3, 4] := by decide
example : ((Stack.fromList [1, 2, 3]).focusNext.bind Stack.focusNext).map
    Stack.focused = some (some 3) := by decide
example : (Stack.fromList [1, 2, 3]).focusPrevious.focused = some 3 := by decide
example : ((Stack.fromList [1, 2, 3]).remove (· == 2)).map (fun r => r.2.iterList)
    = some [1, 3] := by decide

/- ### Small list helper -/

theorem mem_get?_of_mem {α : Type} {a : α} {l : List α} (h : a ∈ l) :
    ∃ n, l.get? n = some a := by
  induction l with
  | nil => simp at h
  | cons x xs ih =>
    rcases List.mem_cons.mp h with h | h
    · exact ⟨0, by simp [h]⟩
    · obtain ⟨n, hn⟩ := ih h
      exact ⟨n + 1, by simpa using hn⟩

/- ### Claim C1 -/

/-- C1 (evaluation at the failing input): on a group whose layouts stack
holds two layouts with the tiled one focused, `layout_previous()`
succeeds but leaves the focused layout unchanged, because it calls
`focus_next()` and then `focus_previous()` on the layouts stack. The
claim (and the spec) say the focused layout must differ afterwards. -/
theorem layoutPrevious_keeps_focused_layout :
    (exGroupTwoLayouts.layoutPrevious).map (fun r => r.1.layouts.focused)
        = some (some (LayoutKind.tiled "tiled" 10)) ∧
    exGroupTwoLayouts.layouts.focused = some (LayoutKind.tiled "tiled" 10) :=
  ⟨rfl, rfl⟩

/- ### Claim C2 -/

/-- C2 counterexample: EnterNotify for a window id (99) not present in
the active group is not a no-op: the handler panics (modelled as `none`)
via `Stack::focus`'s unmatched-predicate panic. -/
theorem onEnterNotify_absent_panics :
    exLanta.onEnterNotify 99 = none ∧ exLanta.onEnterNotify 99 ≠ some (exLanta, []) := by
  constructor
  · rfl
  · decide

/-- C2 (amended): EnterNotify focuses the window in the active group when
it is present in the active group's stack, and panics (`Stack::focus`
finds no match) when it is absent. -/
theorem onEnterNotify_focus_or_panic (l : Lanta) (g : WmGroup) (w : Nat)
    (hg : l.groups.focused = some g) :
    (w ∈ g.stack.iterList →
      ∃ l' t, l.onEnterNotify w = some (l', t) ∧
        l'.groups.focused.map (fun g' => g'.stack.focused) = some (some w)) ∧
    (w ∉ g.stack.iterList → l.onEnterNotify w = none) := by
  constructor
  · intro hm
    obtain ⟨s', hs', hf⟩ := stack_focus_mem hm
    have hpl : (WmGroup.performLayout { g with stack := s' }).isSome = true :=
      performLayout_isSome (Or.inr (by simp [hf]))
    obtain ⟨t, ht⟩ := Option.isSome_iff_exists.mp hpl
    have hgf : g.focus w = some ({ g with stack := s' }, t) := by
      unfold WmGroup.focus
      rw [hs']
      show (WmGroup.performLayout { g with stack := s' }).map
          (fun t => ({ g with stack := s' }, t)) = _
      rw [ht]
      rfl
    refine ⟨{ l with groups := l.groups.setFocused { g with stack := s' } }, t, ?_, ?_⟩
    · unfold Lanta.onEnterNotify
      rw [hg]
      show (g.focus w).map
          (fun r => ({ l with groups := l.groups.setFocused r.1 }, r.2)) = _
      rw [hgf]
      rfl
    · have hsf : (l.groups.setFocused { g with stack := s' }).focused
          = some { g with stack := s' } := setFocused_focused hg _
      simp [hsf, hf]
  · intro hm
    have hnone : g.stack.focus (fun x => x == w) = none := by
      apply stack_focus_not_found
      intro x hx
      by_cases hxw : x = w
      · exact absurd (hxw ▸ hx) hm
      · simp [hxw]
    have hgf : g.focus w = none := by
      unfold WmGroup.focus
      rw [hnone]
    unfold Lanta.onEnterNotify
    rw [hg]
    show (g.focus w).map
        (fun r => ({ l with groups := l.groups.setFocused r.1 }, r.2)) = none
    rw [hgf]
    rfl

/-- Witness for the amended C2 at a concrete state: window 1 is present
in the active group and gets focused. -/
theorem onEnterNotify_focus_or_panic_witness :
    exLanta.groups.focused = some exGroupTwoWindows ∧
    (∃ l' t, exLanta.onEnterNotify 1 = some (l', t) ∧
      l'.groups.focused.map (fun g' => g'.stack.focused) = some (some 1)) :=
  ⟨by decide,
   (onEnterNotify_focus_or_panic exLanta exGroupTwoWindows 1 (by decide)).1 (by decide)⟩

/- ### Claim C8 -/

/-- C8 counterexample: a raw UnmapNotify whose event window (5) is
neither the root (1) nor the window itself (7) is still emitted, so the
emission condition is not that the event window equals the window
itself. -/
theorem onUnmapNotify_third_window_emitted :
    onUnmapNotifyRaw 5 7 1 = some (Event.unmapNotify 7) ∧ (5 : Nat) ≠ 7 := by
  constructor
  · rfl
  · decide

/-- C8 (amended): a raw UnmapNotify is swallowed exactly when its event
window is the root window, and emitted as an UnmapNotify core event
otherwise. -/
theorem onUnmapNotify_root_filter (e w r : Nat) :
    (e = r → onUnmapNotifyRaw e w r = none) ∧
    (e ≠ r → onUnmapNotifyRaw e w r = some (Event.unmapNotify w)) := by
  constructor
  · intro h
    simp [onUnmapNotifyRaw, h]
  · intro h
    simp [onUnmapNotifyRaw, h]

/-- Witness for the amended C8 at concrete windows. -/
theorem onUnmapNotify_root_filter_witness :
    onUnmapNotifyRaw 1 7 1 = none ∧ onUnmapNotifyRaw 2 7 1 = some (Event.unmapNotify 7) :=
  ⟨(onUnmapNotify_root_filter 1 7 1).1 rfl,
   (onUnmapNotify_root_filter 2 7 1).2 (by decide)⟩

/- ### Claim C9 -/

/-- C9 counterexample: `mask_all()` is 248 = Mod1|..|Mod5 and contains
none of the Shift, Lock or Control mask bits, so the enumeration does
not cover Shift, Lock and Control. -/
theorem maskAll_omits_shift_lock_control :
    ModKey.maskAll = 248 ∧
    ModKey.maskAll &&& xlibShiftMask = 0 ∧
    ModKey.maskAll &&& xlibLockMask = 0 ∧
    ModKey.maskAll &&& xlibControlMask = 0 := by
  refine ⟨rfl, ?_, ?_, ?_⟩ <;> rfl

/-- C9 (amended): the modifier enumeration consists exactly of
Mod1..Mod5, `mask_all()` is the bit-or of the masks of these five
modifiers, and key-press event matching masks the driver's reported
state with `mask_all()` before lookup. -/
theorem modKey_maskAll_spec (state keysym : Nat) :
    (∀ m : ModKey, m = .mod1 ∨ m = .mod2 ∨ m = .mod3 ∨ m = .mod4 ∨ m = .mod5) ∧
    ModKey.maskAll = ModKey.mask .mod1 ||| ModKey.mask .mod2 ||| ModKey.mask .mod3
      ||| ModKey.mask .mod4 ||| ModKey.mask .mod5 ∧
    onKeyPressRaw state keysym
      = Event.keyPress { modMask := state &&& ModKey.maskAll, keysym := keysym } := by
  refine ⟨?_, rfl, rfl⟩
  intro m
  cases m <;> simp

/- ### Claim C3 -/

/-- C3 counterexample: remove_window(2) on an active group holding
[1, 2] removes window 2 and re-lays out, but never unmaps it. -/
theorem removeWindow_does_not_unmap :
    (exGroupTwoWindows.removeWindow 2).map
      (fun r => decide (XCall.unmapWindow 2 ∈ r.2.1)) = some false := by
  decide

/-- C3 (amended): after remove_window(id) with id present, the group
re-lays out and the emitted trace is exactly the layout pass (in
particular the removed window is not unmapped); after remove_focused()
with a focused window f, the group re-lays out and then unmaps f with
tracking disabled before the unmap and re-enabled after it. -/
theorem group_remove_traces (g : WmGroup) (w f : Nat) (hin : StackInv g.stack) :
    (w ∈ g.stack.iterList →
      ∃ g' t, g.removeWindow w = some (g', t, w) ∧ g'.performLayout = some t) ∧
    (g.stack.focused = some f →
      ∃ g' t, g.removeFocused = some (g', t ++ [XCall.disableTracking f,
          XCall.unmapWindow f, XCall.enableTracking f], some f) ∧
        g'.performLayout = some t) := by
  constructor
  · intro hm
    obtain ⟨s', hs'⟩ := stack_remove_mem hm
    have hinv' : StackInv s' := stackInv_remove hin hs'
    have hpl : (WmGroup.performLayout { g with stack := s' }).isSome = true :=
      performLayout_isSome (stackInv_emptiness hinv')
    obtain ⟨t, ht⟩ := Option.isSome_iff_exists.mp hpl
    refine ⟨{ g with stack := s' }, t, ?_, ht⟩
    unfold WmGroup.removeWindow
    rw [hs']
    show (WmGroup.performLayout { g with stack := s' }).map
        (fun t => ({ g with stack := s' }, t, w)) = _
    rw [ht]
    rfl
  · intro hf
    cases ha : g.stack.after with
    | nil =>
      unfold Stack.focused at hf
      rw [ha] at hf
      simp at hf
    | cons y rest =>
      have hyf : y = f := by
        unfold Stack.focused at hf
        rw [ha] at hf
        simpa using hf
      have hrf : g.stack.removeFocused
          = (some f, Stack.ensureAfterNotEmpty ⟨g.stack.before, rest⟩) := by
        unfold Stack.removeFocused
        rw [ha, hyf]
      have hinv' : StackInv (Stack.ensureAfterNotEmpty ⟨g.stack.before, rest⟩) :=
        stackInv_ensureAfterNotEmpty _
      have hpl : (WmGroup.performLayout
          { g with stack := Stack.ensureAfterNotEmpty ⟨g.stack.before, rest⟩ }).isSome
            = true :=
        performLayout_isSome (stackInv_emptiness hinv')
      obtain ⟨t, ht⟩ := Option.isSome_iff_exists.mp hpl
      refine ⟨{ g with stack := Stack.ensureAfterNotEmpty ⟨g.stack.before, rest⟩ }, t, ?_, ht⟩
      unfold WmGroup.removeFocused
      rw [hrf]
      show (WmGroup.performLayout
          { g with stack := Stack.ensureAfterNotEmpty ⟨g.stack.before, rest⟩ }).map
          (fun t => ({ g with stack := Stack.ensureAfterNotEmpty ⟨g.stack.before, rest⟩ },
            t ++ [XCall.disableTracking f, XCall.unmapWindow f, XCall.enableTracking f],
            some f)) = _
      rw [ht]
      rfl

/-- Witness for the amended C3 at a concrete group holding [1, 2]. -/
theorem group_remove_traces_witness :
    StackInv exGroupTwoWindows.stack ∧
    (∃ g' t, exGroupTwoWindows.removeWindow 2 = some (g', t, 2) ∧
      g'.performLayout = some t) ∧
    (∃ g' t, exGroupTwoWindows.removeFocused = some (g', t ++ [XCall.disableTracking 1,
        XCall.unmapWindow 1, XCall.enableTracking 1], some 1) ∧
      g'.performLayout = some t) :=
  ⟨by intro h; exact absurd h (by decide),
   (group_remove_traces exGroupTwoWindows 2 1
     (by intro h; exact absurd h (by decide))).1 (by decide),
   (group_remove_traces exGroupTwoWindows 2 1
     (by intro h; exact absurd h (by decide))).2 (by decide)⟩

/- ### Claim C6 -/

theorem tiledLoop_mem {pad : Nat} {v : Viewport} {th : Nat} :
    ∀ {ws : List Nat} {j w : Nat} (i0 : Nat), ws.get? j = some w →
      ∀ c ∈ tiledLoopBody pad v th (i0 + j) w, c ∈ tiledLoop pad v th i0 ws := by
  intro ws
  induction ws with
  | nil =>
    intro j w i0 h
    simp at h
  | cons u us ih =>
    intro j w i0 h c hc
    cases j with
    | zero =>
      simp at h
      subst h
      unfold tiledLoop
      exact List.mem_append_left _ (by simpa using hc)
    | succ j =>
      have h' : us.get? j = some w := by simpa using h
      have hc' : c ∈ tiledLoopBody pad v th ((i0 + 1) + j) w := by
        have hidx : (i0 + 1) + j = i0 + (j + 1) := by omega
        rw [hidx]
        exact hc
      unfold tiledLoop
      exact List.mem_append_right _ (ih (i0 + 1) h' c hc')

/-- C6: for every non-empty window stack and every viewport, the tiled
layout maps every window, and configures the window at stack position i
to x = V.x+pad, y = V.y+pad+i*(row_height+pad), w = V.w-2*pad,
h = row_height with row_height = (V.h-pad)/N - pad (u32 arithmetic). -/
theorem tiled_layout_rows (pad : Nat) (v : Viewport) (s : Stack Nat)
    (h : ¬ s.isEmpty = true) :
    (∀ w ∈ s.iterList, XCall.mapWindow w ∈ tiledRender pad v s) ∧
    (∀ i w, s.iterList.get? i = some w →
      XCall.configureWindow w (tiledSpecX v pad) (tiledSpecY v pad s.len i)
        (tiledSpecW v pad) (tiledSpecRowHeight v pad s.len) ∈ tiledRender pad v s) := by
  have hrender : tiledRender pad v s
      = tiledLoop pad v (tiledSpecRowHeight v pad s.len) 0 s.iterList := by
    unfold tiledRender tiledSpecRowHeight
    rw [if_neg h]
  constructor
  · intro w hw
    obtain ⟨i, hi⟩ := mem_get?_of_mem hw
    rw [hrender]
    exact tiledLoop_mem 0 hi (XCall.mapWindow w) (by simp [tiledLoopBody])
  · intro i w hi
    rw [hrender]
    refine tiledLoop_mem 0 hi _ ?_
    show XCall.configureWindow w (tiledSpecX v pad) (tiledSpecY v pad s.len i)
        (tiledSpecW v pad) (tiledSpecRowHeight v pad s.len)
      ∈ tiledLoopBody pad v (tiledSpecRowHeight v pad s.len) (0 + i) w
    simp [tiledLoopBody, tiledSpecX, tiledSpecY, tiledSpecW]

/-- Witness for C6 on three windows in a 1000x800 viewport with
padding 10 (the spec's S1 scenario: row 1 of window 2 is at y = 273). -/
theorem tiled_layout_rows_witness :
    ¬ (Stack.fromList [1, 2, 3]).isEmpty = true ∧
    XCall.configureWindow 2 (tiledSpecX ⟨0, 0, 1000, 800⟩ 10)
        (tiledSpecY ⟨0, 0, 1000, 800⟩ 10 3 1) (tiledSpecW ⟨0, 0, 1000, 800⟩ 10)
        (tiledSpecRowHeight ⟨0, 0, 1000, 800⟩ 10 3)
      ∈ tiledRender 10 ⟨0, 0, 1000, 800⟩ (Stack.fromList [1, 2, 3]) :=
  ⟨by decide,
   (tiled_layout_rows 10 ⟨0, 0, 1000, 800⟩ (Stack.fromList [1, 2, 3]) (by decide)).2
     1 2 (by decide)⟩

/- ### Claim C7 -/

theorem strut_foldl_acc (l : List Strut) (a b c d : Nat) :
    l.foldl
      (fun acc s =>
        (max acc.1 s.left, max acc.2.1 s.right, max acc.2.2.1 s.top, max acc.2.2.2 s.bottom))
      (a, b, c, d)
    = (max a (l.foldr (fun s acc => max s.left acc) 0),
       max b (l.foldr (fun s acc => max s.right acc) 0),
       max c (l.foldr (fun s acc => max s.top acc) 0),
       max d (l.foldr (fun s acc => max s.bottom acc) 0)) := by
  induction l generalizing a b c d with
  | nil => simp
  | cons s l ih =>
    simp only [List.foldl_cons, List.foldr_cons]
    rw [ih]
    simp [Nat.max_assoc]

theorem fold_sides (docks : List Dock) (acc : Nat × Nat × Nat × Nat) :
    (docks.filterMap Dock.strut).foldl
      (fun acc s =>
        (max acc.1 s.left, max acc.2.1 s.right, max acc.2.2.1 s.top, max acc.2.2.2 s.bottom))
      acc
    = ((docks.map dockKey).filterMap Prod.snd).foldl
      (fun acc q =>
        (max acc.1 q.1, max acc.2.1 q.2.1, max acc.2.2.1 q.2.2.1, max acc.2.2.2 q.2.2.2))
      acc := by
  induction docks generalizing acc with
  | nil => rfl
  | cons d ds ih =>
    cases hs : d.strut with
    | none => simp [List.filterMap_cons, hs, dockKey, ih]
    | some s => simp [List.filterMap_cons, hs, dockKey, ih]

/-- C7: Screen::viewport folds the struts of the docks that have one
with max on each side (0 when none has one) and yields
(left, top, w-left-right, h-top-bottom) in u32 arithmetic; the start/end
extents of the struts have no effect on the result. -/
theorem screen_viewport_spec (docks : List Dock) (sw sh : Nat) :
    screenViewport docks sw sh
      = { x := specMaxLeft docks, y := specMaxTop docks,
          width := sub32 (sub32 sw (specMaxLeft docks)) (specMaxRight docks),
          height := sub32 (sub32 sh (specMaxTop docks)) (specMaxBottom docks) } ∧
    ∀ docks' : List Dock, docks.map dockKey = docks'.map dockKey →
      screenViewport docks sw sh = screenViewport docks' sw sh := by
  have hfold : screenStrutFold docks
      = (specMaxLeft docks, specMaxRight docks, specMaxTop docks, specMaxBottom docks) := by
    unfold screenStrutFold specMaxLeft specMaxRight specMaxTop specMaxBottom
    rw [strut_foldl_acc]
    simp
  constructor
  · unfold screenViewport
    rw [hfold]
  · intro docks' hk
    have hss : screenStrutFold docks = screenStrutFold docks' := by
      unfold screenStrutFold
      rw [fold_sides docks (0, 0, 0, 0), fold_sides docks' (0, 0, 0, 0), hk]
    unfold screenViewport
    rw [hss]

/-- Witness for C7: two docks that differ only in their strut start/end
extents produce the same viewport. -/
theorem screen_viewport_spec_witness :
    [exDock].map dockKey = [exDock'].map dockKey ∧
    screenViewport [exDock] 1000 800 = screenViewport [exDock'] 1000 800 :=
  ⟨by decide, (screen_viewport_spec [exDock] 1000 800).2 [exDock'] (by decide)⟩

/- ### Claim C10 -/

/-- C10: switch_group with a name that is neither the current group's
name nor the name of any group panics (`Stack::focus` finds no match),
and the panic happens only after the current group was deactivated: the
trace emitted before the panic is exactly the deactivation trace, which
unmaps every window of the current group. -/
theorem switchGroup_unknown_panics (l : Lanta) (g : WmGroup) (name : String)
    (hg : l.groups.focused = some g) (hne : g.name ≠ name)
    (habs : ∀ gr ∈ l.groups.iterList, gr.name ≠ name) :
    l.switchGroup name = ((g.deactivate).2, none) ∧
    ∀ w ∈ g.stack.iterList, XCall.unmapWindow w ∈ (l.switchGroup name).1 := by
  have hfoc : (l.groups.setFocused (g.deactivate).1).focus
      (fun gr => gr.name == name) = none := by
    apply stack_focus_not_found
    intro gr hgr
    rcases setFocused_mem hgr with hmem | hEq
    · simpa using habs gr hmem
    · rw [hEq]
      simp [WmGroup.deactivate, hne]
  have hmain : l.switchGroup name = ((g.deactivate).2, none) := by
    unfold Lanta.switchGroup
    rw [hg]
    show l.switchGroupAux g name = ((g.deactivate).2, none)
    unfold Lanta.switchGroupAux
    rw [if_neg (by simp [hne]), hfoc]
  refine ⟨hmain, ?_⟩
  intro w hw
  rw [hmain]
  exact deactivate_unmaps g w hw

/-- Witness for C10: switching the concrete manager to the non-existent
group "zzz" panics after emitting the unmap of window 1. -/
theorem switchGroup_unknown_panics_witness :
    exLanta.switchGroup "zzz" = ((exGroupTwoWindows.deactivate).2, none) ∧
    XCall.unmapWindow 1 ∈ (exLanta.switchGroup "zzz").1 :=
  ⟨(switchGroup_unknown_panics exLanta exGroupTwoWindows "zzz" (by decide) (by decide)
      (by decide)).1,
   (switchGroup_unknown_panics exLanta exGroupTwoWindows "zzz" (by decide) (by decide)
      (by decide)).2 1 (by decide)⟩

example : tiledSpecRowHeight ⟨0, 0, 1000, 800⟩ 10 3 = 253 := by decide
example : tiledSpecX ⟨0, 0, 1000, 800⟩ 10 = 10 := by decide
example : tiledSpecY ⟨0, 0, 1000, 800⟩ 10 3 1 = 273 := by decide
example : tiledSpecY ⟨0, 0, 1000, 800⟩ 10 3 2 = 536 := by decide
example : tiledSpecW ⟨0, 0, 1000, 800⟩ 10 = 980 := by decide
